import Mathlib

/-!
Verification of the doclingGUI repository (two GUI front-ends around the
external docling command-line converter: src/main.py and src/doclingGUI.py).

The development shallowly embeds the testable core of both front-ends:

* POSIX path helpers (split / join / dirname / relpath) as used through
  os.path by src/doclingGUI.py, implemented over lists of characters
  exactly following the CPython posixpath algorithms;
* file discovery (FileProcessor.is_valid_file / get_files_to_process in
  src/main.py, DoclingGUI._find_pdf_files in src/doclingGUI.py).  A
  directory tree is represented by the ordered sequence of entries the
  OS traversal (Path.rglob / os.walk) yields: each entry carries its
  path components relative to the scanned root plus an is-file flag;
* the settings store (SettingsManager.load_settings / save_settings in
  src/doclingGUI.py) over an explicit JSON value type;
* the command builders (DoclingWorker._build_docling_command in
  src/main.py, and the inline command construction of
  DoclingGUI._process_conversion in src/doclingGUI.py);
* the sequential per-file conversion loops of both front-ends, with the
  outcome of the external process for each file supplied as a function
  from the file to an exit code / stdout / stderr record.
-/

/-! ## Character-list path primitives (CPython posixpath semantics) -/

/-- Split a character list at every slash, like Python str.split with
separator slash: the result always has one more piece than there are
slashes, and pieces may be empty. -/
def splitOnSlash : List Char → List (List Char)
  | [] => [[]]
  | c :: rest =>
    let r := splitOnSlash rest
    if c = '/' then [] :: r
    else (c :: r.headD []) :: r.tail

/-- Non-empty path components of a character list, like the list
comprehension in posixpath.relpath, which keeps the non-empty pieces of
p.split(sep). -/
def partsCL (cs : List Char) : List (List Char) :=
  (splitOnSlash cs).filter (· ≠ [])

/-- Index of the last occurrence of a character, like Python str.rfind
restricted to a successful search. -/
def rfindIdx (c : Char) : List Char → Option Nat
  | [] => none
  | x :: xs =>
    match rfindIdx c xs with
    | some i => some (i + 1)
    | none => if x = c then some 0 else none

/-- Drop trailing slashes, like Python str.rstrip applied with the
slash character. -/
def rstripSlash (cs : List Char) : List Char :=
  (cs.reverse.dropWhile (· = '/')).reverse

/-- Two-argument os.path.join on character lists, following the CPython
posixpath.join algorithm: an absolute second argument wins; otherwise a
separator is inserted unless the first argument is empty or already ends
with a slash. -/
def joinCL (a b : List Char) : List Char :=
  if b.head? = some '/' then b
  else if a = [] ∨ a.getLast? = some '/' then a ++ b
  else a ++ '/' :: b

/-- os.path.dirname on character lists, following CPython posixpath:
take everything up to and including the last slash, then strip trailing
slashes unless the head consists of slashes only; without any slash the
result is empty. -/
def dirnameCL (p : List Char) : List Char :=
  match rfindIdx '/' p with
  | none => []
  | some i =>
    let head := p.take (i + 1)
    if head.all (· = '/') then head else rstripSlash head

/-- Length of the longest common prefix of two component lists, as
computed by os.path.commonprefix inside posixpath.relpath. -/
def commonPrefixLen : List (List Char) → List (List Char) → Nat
  | a :: as, b :: bs => if a = b then commonPrefixLen as bs + 1 else 0
  | _, _ => 0

/-- Slash-joined concatenation of components, the value of
posixpath.join on components that are non-empty and slash-free (Python
sep.join). -/
def intercalateSlashCL : List (List Char) → List Char
  | [] => []
  | [c] => c
  | c :: cs => c ++ '/' :: intercalateSlashCL cs

/-- posixpath.relpath on character lists for already-normalized
absolute inputs (the folder-picker paths the GUI feeds it), following
the CPython algorithm: split both paths into non-empty components, drop
the common prefix, prepend one parent-directory component per remaining
start component and join the rest. -/
def relpathCL (path start : List Char) : List Char :=
  let sl := partsCL start
  let pl := partsCL path
  let i := commonPrefixLen sl pl
  let rel := List.replicate (sl.length - i) ['.', '.'] ++ pl.drop i
  match rel with
  | [] => ['.']
  | r :: rs => rs.foldl joinCL r

/-! ## String wrappers for the path primitives -/

/-- String form of joinCL, modelling os.path.join with two arguments. -/
def joinPath (a b : String) : String :=
  String.mk (joinCL a.toList b.toList)

/-- String form of dirnameCL, modelling os.path.dirname. -/
def dirname (p : String) : String :=
  String.mk (dirnameCL p.toList)

/-- String form of relpathCL, modelling os.path.relpath. -/
def relpath (path start : String) : String :=
  String.mk (relpathCL path.toList start.toList)

/-- String form of intercalateSlashCL: the slash-joined rendering of a
list of path components. -/
def intercalateSlash (l : List String) : String :=
  String.mk (intercalateSlashCL (l.map String.toList))

/-- Chained os.path.join of a root with successive components, the way
os.walk plus os.path.join(root, file) builds the path of a file that
lies comps-deep under the walked root. -/
def renderPath (root : String) (comps : List String) : String :=
  comps.foldl joinPath root

/-- A path component is good when it is non-empty and slash-free; the
components produced by an OS directory traversal (file and directory
names) always are. -/
def GoodComp (c : String) : Prop :=
  c ≠ "" ∧ '/' ∉ c.toList

instance (c : String) : Decidable (GoodComp c) := by
  unfold GoodComp; infer_instance

/-! ## File discovery (src/main.py FileProcessor, src/doclingGUI.py _find_pdf_files)

A directory tree is represented by the ordered list of entries that the
OS traversal yields (Path.rglob for main.py, os.walk for doclingGUI.py):
each entry is its component path relative to the scanned root together
with an is-file flag.  Both discovery functions below are the per-entry
filters the source applies to that traversal. -/

/-- One entry yielded by the directory traversal: its path components
relative to the scanned root, and whether it is a regular file. -/
structure FsEntry where
  comps : List String
  isFile : Bool
deriving DecidableEq, Repr

/-- Name of an entry: its final path component, like pathlib
PurePath.name or the file variable of os.walk. -/
def entryName (e : FsEntry) : String :=
  e.comps.getLastD ""

/-- FileProcessor.VALID_EXTENSIONS of src/main.py. -/
def VALID_EXTENSIONS : List String :=
  [".pdf", ".docx", ".pptx", ".html", ".xlsx", ".md", ".txt"]

/-- Python str.lower, modelled as character-wise ASCII lowercasing,
which coincides with it on the extension alphabet compared here. -/
def lowerStr (s : String) : String :=
  String.mk (s.toList.map Char.toLower)

/-- pathlib PurePath.suffix of a file name: the part from the last dot
on, unless that dot is the first or the last character. -/
def suffix (name : String) : String :=
  let cs := name.toList
  match rfindIdx '.' cs with
  | none => ""
  | some i =>
    if 0 < i ∧ i < cs.length - 1 then String.mk (cs.drop i) else ""

/-- Python str.startswith applied to the hidden-file marker: the first
character is a dot. -/
def startsWithDot (name : String) : Bool :=
  name.toList.head? = some '.'

/-- FileProcessor.is_valid_file of src/main.py: the name does not start
with a dot and the lower-cased suffix is in VALID_EXTENSIONS. -/
def is_valid_file (name : String) : Bool :=
  !startsWithDot name && VALID_EXTENSIONS.contains (lowerStr (suffix name))

/-- FileProcessor.get_files_to_process of src/main.py: keep each
traversal entry that is a regular file and passes is_valid_file, in
traversal order. -/
def get_files_to_process (fs : List FsEntry) : List (List String) :=
  (fs.filter (fun e => e.isFile && is_valid_file (entryName e))).map (·.comps)

/-- Python str.lower().endswith applied with the pdf extension, as in
DoclingGUI._find_pdf_files of src/doclingGUI.py. -/
def lowerEndsWithPdf (name : String) : Bool :=
  List.isSuffixOf ".pdf".toList (lowerStr name).toList

/-- DoclingGUI._find_pdf_files of src/doclingGUI.py: keep each
traversal file whose lower-cased name ends with the pdf extension, in
traversal order; hidden files are not excluded. -/
def find_pdf_files (fs : List FsEntry) : List (List String) :=
  (fs.filter (fun e => e.isFile && lowerEndsWithPdf (entryName e))).map (·.comps)

/-- Modelled from the spec: a file is eligible for discovery iff its
extension compared case-insensitively is in the fixed allow-list and its
name does not start with the hidden-file marker (spec sections 4.2, 6
and 8). -/
def SpecEligible (name : String) : Prop :=
  lowerStr (suffix name) ∈ VALID_EXTENSIONS ∧ startsWithDot name = false

instance (name : String) : Decidable (SpecEligible name) := by
  unfold SpecEligible; infer_instance

/-- Scenario directory of the spec: a flat input folder holding a.pdf,
b.docx, .hidden.pdf and c.exe, in that traversal order. -/
def scenarioFS : List FsEntry :=
  [⟨["a.pdf"], true⟩, ⟨["b.docx"], true⟩, ⟨[".hidden.pdf"], true⟩, ⟨["c.exe"], true⟩]

/-! ## Settings store (src/doclingGUI.py SettingsManager) -/

/-- JSON values, as produced by Python json.load. -/
inductive JsonVal where
  | str (s : String)
  | bool (b : Bool)
  | num (n : Int)
  | null
  | arr (l : List JsonVal)
  | obj (fields : List (String × JsonVal))

/-- AppSettings dataclass of src/doclingGUI.py, with the field types its
annotations declare (verbosity is an int there). -/
structure AppSettings where
  input_path : String
  output_path : String
  ocr_enabled : Bool
  force_ocr : Bool
  ocr_engine : String
  table_mode : String
  verbosity : Int
  delete_pdfs : Bool
deriving DecidableEq, Repr

/-- SettingsManager.default_settings: AppSettings built from the
expanduser home directory (passed in as a string here) joined with
Documents for both paths, all other fields at their dataclass defaults. -/
def default_settings (home : String) : AppSettings :=
  { input_path := home ++ "/Documents"
    output_path := home ++ "/Documents"
    ocr_enabled := false
    force_ocr := false
    ocr_engine := "easyocr"
    table_mode := "accurate"
    verbosity := 0
    delete_pdfs := false }

/-- Settings as load_settings actually materializes them: Python stores
whatever JSON value each dict.get returned into the dataclass field
without any conversion, so the loaded record holds raw JSON values. -/
structure RawSettings where
  input_path : JsonVal
  output_path : JsonVal
  ocr_enabled : JsonVal
  force_ocr : JsonVal
  ocr_engine : JsonVal
  table_mode : JsonVal
  verbosity : JsonVal
  delete_pdfs : JsonVal

/-- Injection of a typed AppSettings value into the raw JSON-valued
field record; loading a faithfully saved file lands exactly here. -/
def rawOf (s : AppSettings) : RawSettings :=
  { input_path := .str s.input_path
    output_path := .str s.output_path
    ocr_enabled := .bool s.ocr_enabled
    force_ocr := .bool s.force_ocr
    ocr_engine := .str s.ocr_engine
    table_mode := .str s.table_mode
    verbosity := .num s.verbosity
    delete_pdfs := .bool s.delete_pdfs }

/-- State of the settings file as load_settings observes it: missing
(os.path.exists false), present but not parseable as JSON
(json.JSONDecodeError, or an OSError while reading), or parsed to a
JSON value. -/
inductive FileContent where
  | absent
  | unparseable
  | parsed (j : JsonVal)

/-- Python dict.get with a default, over the field list of a parsed
JSON object. -/
def jsonGet (fields : List (String × JsonVal)) (key : String) (dflt : JsonVal) : JsonVal :=
  match fields.lookup key with
  | some v => v
  | none => dflt

/-- SettingsManager.save_settings of src/doclingGUI.py: the JSON object
written to the settings file (json.dump of settings_dict, key for key). -/
def save_settings (s : AppSettings) : JsonVal :=
  .obj [("input_path", .str s.input_path),
        ("output_path", .str s.output_path),
        ("ocr_enabled", .bool s.ocr_enabled),
        ("force_ocr", .bool s.force_ocr),
        ("ocr_engine", .str s.ocr_engine),
        ("table_mode", .str s.table_mode),
        ("verbosity", .num s.verbosity),
        ("delete_pdfs", .bool s.delete_pdfs)]

/-- SettingsManager.load_settings of src/doclingGUI.py.  A missing or
unparseable file yields the defaults (the except clause catches
json.JSONDecodeError and OSError only); a parsed JSON object is read
key by key with dict.get falling back to the default field; any other
parsed JSON value hits saved_settings.get on a non-dict and raises
AttributeError, modelled as the error branch. -/
def load_settings (home : String) : FileContent → Except String RawSettings
  | .absent => .ok (rawOf (default_settings home))
  | .unparseable => .ok (rawOf (default_settings home))
  | .parsed (.obj fields) =>
    let d := default_settings home
    .ok { input_path := jsonGet fields "input_path" (.str d.input_path)
          output_path := jsonGet fields "output_path" (.str d.output_path)
          ocr_enabled := jsonGet fields "ocr_enabled" (.bool d.ocr_enabled)
          force_ocr := jsonGet fields "force_ocr" (.bool d.force_ocr)
          ocr_engine := jsonGet fields "ocr_engine" (.str d.ocr_engine)
          table_mode := jsonGet fields "table_mode" (.str d.table_mode)
          verbosity := jsonGet fields "verbosity" (.num d.verbosity)
          delete_pdfs := jsonGet fields "delete_pdfs" (.bool d.delete_pdfs) }
  | .parsed _ => .error "AttributeError: object has no attribute get"

/-! ## Command builders -/

/-- ProcessingConfig dataclass of src/main.py. -/
structure ProcessingConfig where
  input_path : String
  output_path : String
  export_format : String
  table_mode : String
  force_ocr : Bool
  ocr_bitmaps : Bool
  temp_dir : String
deriving DecidableEq, Repr

/-- DoclingWorker._build_docling_command of src/main.py: the fixed
argument list with the top-level output path, followed by the optional
force-ocr and ocr flags. -/
def build_docling_command (cfg : ProcessingConfig) (file_path : String) : List String :=
  ["docling", file_path,
   "--to", cfg.export_format,
   "--output", cfg.output_path,
   "--table-mode", cfg.table_mode,
   "--ocr-engine", "easyocr",
   "--verbose"]
  ++ (if cfg.force_ocr then ["--force-ocr"] else [])
  ++ (if cfg.ocr_bitmaps then ["--ocr"] else [])

/-- Configuration record DoclingGUI.get_config actually returns: the
AppSettings constructor call there stores the verbosity as the string
built by string repetition, not as the annotated int. -/
structure RunConfig where
  input_path : String
  output_path : String
  ocr_enabled : Bool
  force_ocr : Bool
  ocr_engine : String
  table_mode : String
  verbosity : String
  delete_pdfs : Bool
deriving DecidableEq, Repr

/-- UI state get_config reads: the two path line edits, the check boxes,
the combo boxes and the verbosity spin box (whose range is 0 to 2). -/
structure UIState where
  input_path : String
  output_path : String
  ocr_enabled : Bool
  force_ocr : Bool
  ocr_engine : String
  table_mode : String
  verbosity_level : Nat
  delete_pdfs : Bool
deriving DecidableEq, Repr

/-- Python string repetition: the string s concatenated n times. -/
def repeatStr (s : String) (n : Nat) : String :=
  String.join (List.replicate n s)

/-- DoclingGUI.get_config of src/doclingGUI.py: verbosity becomes the
single string obtained by repeating the verbosity flag
verbosity-level-many times (empty for level zero); the rest is copied
from the widgets. -/
def get_config (ui : UIState) : RunConfig :=
  { input_path := ui.input_path
    output_path := ui.output_path
    ocr_enabled := ui.ocr_enabled
    force_ocr := ui.force_ocr
    ocr_engine := ui.ocr_engine
    table_mode := ui.table_mode
    verbosity := if ui.verbosity_level > 0 then repeatStr "-v" ui.verbosity_level else ""
    delete_pdfs := ui.delete_pdfs }

/-- Per-file output directory of DoclingGUI._process_conversion:
os.path.join of the output root with os.path.dirname of
os.path.relpath(pdf_file, input root). -/
def guiOutputDir (cfg : RunConfig) (pdf_file : String) : String :=
  joinPath cfg.output_path (dirname (relpath pdf_file cfg.input_path))

/-- Inline command construction of DoclingGUI._process_conversion of
src/doclingGUI.py, lines 376-395: base command, ocr flag or its
negation, force-ocr flag or its negation, engine, table mode, per-file
output directory, and the verbosity string as one trailing argument when
it is non-empty (Python string truthiness). -/
def guiBuildCommand (cfg : RunConfig) (pdf_file : String) : List String :=
  ["docling", pdf_file, "--from", "pdf", "--to", "md"]
  ++ (if cfg.ocr_enabled then ["--ocr"] else ["--no-ocr"])
  ++ (if cfg.force_ocr then ["--force-ocr"] else ["--no-force-ocr"])
  ++ ["--ocr-engine", cfg.ocr_engine,
      "--table-mode", cfg.table_mode,
      "--output", guiOutputDir cfg pdf_file]
  ++ (if cfg.verbosity ≠ "" then [cfg.verbosity] else [])

/-- Modelled from the spec: the output-directory argument must equal
outputRoot/relativeParentOf(file), the output root extended by the
parent components of the file's path relative to the input root (spec
sections 4.3 and 8); the slash-joining is os.path.join. -/
def specOutputDir (outputRoot : String) (relComps : List String) : String :=
  joinPath outputRoot (intercalateSlash relComps.dropLast)

/-- First argument following the first occurrence of a flag in an
argument list, for reading an option back out of a built command. -/
def extractFlagArg (flag : String) : List String → Option String
  | [] => none
  | [_] => none
  | x :: y :: rest => if x = flag then some y else extractFlagArg flag (y :: rest)

/-! ## Sequential conversion loops

The outcome of the external docling process for a given file is supplied
as a function from the file (its components relative to the input root)
to a record of exit code and captured output, mirroring the
subprocess.run result both front-ends inspect. -/

/-- Result of one synchronous subprocess.run invocation: exit code and
captured stdout and stderr. -/
structure ProcResult where
  returncode : Int
  stdout : String
  stderr : String
deriving DecidableEq, Repr

/-- os.path.basename as used for the processed file: with files given by
their path components, the final component. -/
def basenameOf (f : List String) : String :=
  f.getLastD ""

/-- Error text DoclingGUI._process_conversion builds when
subprocess.run raises CalledProcessError, character for character the
f-string of src/doclingGUI.py lines 414-419 (Python string truthiness
on the captured streams). -/
def errorMessage (filename : String) (r : ProcResult) : String :=
  "Error processing " ++ filename ++ "\n" ++
  "Command failed with exit status " ++ toString r.returncode ++ "\n" ++
  "Error output:\n" ++ (if r.stderr ≠ "" then r.stderr else "No error output") ++ "\n" ++
  "Standard output:\n" ++ (if r.stdout ≠ "" then r.stdout else "No standard output")

/-- Per-file loop of DoclingGUI._process_conversion: process the files
in order; the first non-zero exit raises the RuntimeError carrying
errorMessage, which aborts the whole run; otherwise all files are
processed. -/
def guiLoop (exec : List String → ProcResult) : List (List String) → Except String (List (List String))
  | [] => .ok []
  | f :: rest =>
    let r := exec f
    if r.returncode = 0 then (guiLoop exec rest).map (f :: ·)
    else .error (errorMessage (basenameOf f) r)

/-- DoclingGUI._delete_processed_pdfs of src/doclingGUI.py: walk the
input tree again with the same pdf filter as discovery and os.remove
each match; a failing removal (delExec false) is only logged, so the
deleted files are exactly the matches whose removal succeeded. -/
def delete_processed_pdfs (delExec : List String → Bool) (fs : List FsEntry) : List (List String) :=
  (find_pdf_files fs).filter delExec

/-- DoclingGUI._process_conversion of src/doclingGUI.py: discover the
pdf files, raise the no-files RuntimeError when none match, run the
per-file loop, and on overall success delete the sources when the
delete flag is set.  The first result component is the run outcome (the
raised error propagates to run_conversion's dialog), the second the
list of deleted source files. -/
def process_conversion (cfg : RunConfig) (exec : List String → ProcResult)
    (delExec : List String → Bool) (fs : List FsEntry) :
    Except String (List (List String)) × List (List String) :=
  let pdfs := find_pdf_files fs
  if pdfs.isEmpty then (.error "No PDF files found in the input folder", [])
  else
    match guiLoop exec pdfs with
    | .error m => (.error m, [])
    | .ok processed =>
      if cfg.delete_pdfs then (.ok processed, delete_processed_pdfs delExec fs)
      else (.ok processed, [])

/-- Button state of the doclingGUI run control. -/
structure ButtonState where
  enabled : Bool
  text : String
deriving DecidableEq, Repr

/-- DoclingGUI._process_conversion wrapped in its try/finally: whatever
the body does (success, per-file failure, or the no-files error), the
finally clause re-enables the run button and restores its label. -/
def gui_run_conversion (cfg : RunConfig) (exec : List String → ProcResult)
    (delExec : List String → Bool) (fs : List FsEntry) :
    (Except String (List (List String)) × List (List String)) × ButtonState :=
  (process_conversion cfg exec delExec fs, ⟨true, "Run Conversion"⟩)

/-- Signals the src/main.py worker emits. -/
inductive MainEvent where
  | progress (f : List String)
  | error (msg : String)
  | finished
deriving DecidableEq, Repr

/-- Run states of the spec's RunState abstraction that a finished
worker loop can be in. -/
inductive RunState where
  | Completed
  | Cancelled
  | Failed (msg : String)
deriving DecidableEq, Repr

/-- DoclingWorker._process_files of src/main.py, with the cooperative
cancellation flag read at the top of iteration i given as flag i: on a
set flag the loop breaks; otherwise the file is processed, a non-zero
exit raising the RuntimeError that the per-file except clause turns
into an error signal before continuing with the next file.  Returns the
emitted progress/error signals, the successfully converted files, and
whether the loop broke on the cancellation flag. -/
def main_process_files (flag : Nat → Bool) (exec : List String → ProcResult) :
    Nat → List (List String) → List MainEvent × List (List String) × Bool
  | _, [] => ([], [], false)
  | i, f :: rest =>
    if flag i then ([], [], true)
    else
      let r := exec f
      let (evs, conv, c) := main_process_files flag exec (i + 1) rest
      if r.returncode = 0 then (.progress f :: evs, f :: conv, c)
      else
        (.progress f :: .error ("Failed to process " ++ basenameOf f ++ ": Docling failed: " ++ r.stderr) :: evs,
         conv, c)

/-- Spec RunState of a finished src/main.py worker loop: Cancelled when
the loop broke on the flag, Completed otherwise. -/
def mainRunState (res : List MainEvent × List (List String) × Bool) : RunState :=
  if res.2.2 then .Cancelled else .Completed

/-- DoclingWorker.run of src/main.py: the try/except/finally around
_process_files.  The body's emitted signals are followed by an error
signal when the body escaped with an exception, and the finally clause
emits the finished signal in every case. -/
def worker_run (emitted : List MainEvent) (exc : Option String) : List MainEvent :=
  emitted ++ (match exc with | some m => [.error m] | none => []) ++ [.finished]

/-! ## Lemmas about the path primitives -/

theorem splitOnSlash_ne_nil (cs : List Char) : splitOnSlash cs ≠ [] := by
  cases cs with
  | nil => simp [splitOnSlash]
  | cons c rest =>
    simp only [splitOnSlash]
    split <;> simp

theorem splitOnSlash_append_slash (xs ys : List Char) :
    splitOnSlash (xs ++ '/' :: ys) = splitOnSlash xs ++ splitOnSlash ys := by
  induction xs with
  | nil => simp [splitOnSlash]
  | cons c rest ih =>
    rcases h : splitOnSlash rest with _ | ⟨p, ps⟩
    · exact absurd h (splitOnSlash_ne_nil rest)
    · simp only [List.cons_append, splitOnSlash, List.append_eq]
      rw [ih, h]
      by_cases hc : c = '/' <;> simp [hc]

theorem splitOnSlash_no_slash (cs : List Char) (h : '/' ∉ cs) : splitOnSlash cs = [cs] := by
  induction cs with
  | nil => rfl
  | cons c rest ih =>
    simp only [List.mem_cons, not_or] at h
    simp only [splitOnSlash, ih h.2]
    simp [Ne.symm h.1]

theorem partsCL_append_slash (xs ys : List Char) :
    partsCL (xs ++ '/' :: ys) = partsCL xs ++ partsCL ys := by
  simp [partsCL, splitOnSlash_append_slash]

theorem partsCL_no_slash (cs : List Char) (h : '/' ∉ cs) (hne : cs ≠ []) :
    partsCL cs = [cs] := by
  simp [partsCL, splitOnSlash_no_slash cs h, hne]

theorem partsCL_nil : partsCL [] = [] := rfl

theorem partsCL_append_last_slash (xs : List Char) : partsCL (xs ++ ['/']) = partsCL xs := by
  have := partsCL_append_slash xs []
  simpa [partsCL_nil] using this

theorem partsCL_joinCL (a c : List Char) (hne : c ≠ []) (hs : '/' ∉ c) :
    partsCL (joinCL a c) = partsCL a ++ [c] := by
  have hhead : c.head? ≠ some '/' := by
    cases c with
    | nil => simp
    | cons x xs =>
      simp only [List.head?_cons, ne_eq, Option.some.injEq]
      intro hx
      subst hx
      exact hs (List.mem_cons_self _ _)
  unfold joinCL
  rw [if_neg hhead]
  split
  · rename_i hcond
    rcases hcond with ha | hlast
    · subst ha
      simp [partsCL_no_slash c hs hne, partsCL_nil]
    · rcases List.getLast?_eq_some_iff.mp hlast with ⟨a', ha'⟩
      subst ha'
      rw [List.append_assoc]
      simp only [List.singleton_append]
      rw [partsCL_append_slash a' c, partsCL_append_last_slash a', partsCL_no_slash c hs hne]
  · rw [partsCL_append_slash a c, partsCL_no_slash c hs hne]

theorem toList_mk (l : List Char) : (String.mk l).toList = l := rfl

theorem toList_ne_nil {s : String} (h : s ≠ "") : s.toList ≠ [] := by
  intro hcon
  exact h (congrArg String.mk hcon)

theorem joinPath_toList (a b : String) : (joinPath a b).toList = joinCL a.toList b.toList := rfl

theorem intercalateSlashCL_cons₂ (a b : List Char) (l : List (List Char)) :
    intercalateSlashCL (a :: b :: l) = a ++ '/' :: intercalateSlashCL (b :: l) := rfl

theorem partsCL_renderPath (comps : List String) (a : String)
    (hg : ∀ c ∈ comps, GoodComp c) :
    partsCL ((renderPath a comps).toList) = partsCL a.toList ++ comps.map String.toList := by
  induction comps generalizing a with
  | nil => simp [renderPath]
  | cons c cs ih =>
    have hgc : GoodComp c := hg c (List.mem_cons_self _ _)
    have hrest : ∀ x ∈ cs, GoodComp x := fun x hx => hg x (List.mem_cons_of_mem _ hx)
    have hstep : renderPath a (c :: cs) = renderPath (joinPath a c) cs := by
      simp [renderPath]
    rw [hstep, ih (joinPath a c) hrest, joinPath_toList,
      partsCL_joinCL a.toList c.toList (toList_ne_nil hgc.1) hgc.2]
    simp

theorem commonPrefixLen_self_append (l m : List (List Char)) :
    commonPrefixLen l (l ++ m) = l.length := by
  induction l with
  | nil => cases m <;> rfl
  | cons x xs ih => simp [commonPrefixLen, ih]

theorem foldl_joinCL_good (cs : List (List Char)) :
    ∀ acc : List Char, acc ≠ [] → acc.getLast? ≠ some '/' →
    (∀ c ∈ cs, c ≠ [] ∧ '/' ∉ c) →
    cs.foldl joinCL acc = intercalateSlashCL (acc :: cs) := by
  induction cs with
  | nil => intro acc _ _ _; rfl
  | cons c cs' ih =>
    intro acc hacc hlast hg
    have hgc := hg c (List.mem_cons_self _ _)
    have hrest : ∀ x ∈ cs', x ≠ [] ∧ '/' ∉ x := fun x hx => hg x (List.mem_cons_of_mem _ hx)
    have hjoin : joinCL acc c = acc ++ '/' :: c := by
      unfold joinCL
      have hhead : c.head? ≠ some '/' := by
        cases c with
        | nil => simp
        | cons x xs =>
          simp only [List.head?_cons, ne_eq, Option.some.injEq]
          intro hx
          subst hx
          exact hgc.2 (List.mem_cons_self _ _)
      rw [if_neg hhead, if_neg]
      push_neg
      exact ⟨hacc, hlast⟩
    have hlast' : (acc ++ '/' :: c).getLast? ≠ some '/' := by
      have h1 : ('/' :: c).getLast? = c.getLast? := by
        have := @List.getLast?_append _ ['/'] c
        rcases hc : c.getLast? with _ | x
        · exact absurd (List.getLast?_eq_none_iff.mp hc) hgc.1
        · simpa [hc] using this
      have h2 : (acc ++ '/' :: c).getLast? = ('/' :: c).getLast? := by
        have := @List.getLast?_append _ acc ('/' :: c)
        rcases hc : ('/' :: c).getLast? with _ | x
        · simp at hc
        · simp [hc] at this
          simp [hc, this]
      rw [h2, h1]
      rcases hc : c.getLast? with _ | x
      · simp
      · simp only [ne_eq, Option.some.injEq]
        intro hx
        subst hx
        rcases List.getLast?_eq_some_iff.mp hc with ⟨l', hl'⟩
        exact hgc.2 (by simp [hl'])
    have hne' : acc ++ '/' :: c ≠ [] := by simp
    calc (c :: cs').foldl joinCL acc = cs'.foldl joinCL (joinCL acc c) := by simp
    _ = cs'.foldl joinCL (acc ++ '/' :: c) := by rw [hjoin]
    _ = intercalateSlashCL ((acc ++ '/' :: c) :: cs') := ih _ hne' hlast' hrest
    _ = intercalateSlashCL (acc :: c :: cs') := by
        cases cs' with
        | nil => rfl
        | cons d ds => simp [intercalateSlashCL_cons₂]

theorem rfindIdx_none {c : Char} {cs : List Char} (h : c ∉ cs) : rfindIdx c cs = none := by
  induction cs with
  | nil => rfl
  | cons x xs ih =>
    simp only [List.mem_cons, not_or] at h
    simp [rfindIdx, ih h.2, Ne.symm h.1]

theorem rfindIdx_append_last {L : List Char} (A : List Char) (h : '/' ∉ L) :
    rfindIdx '/' (A ++ '/' :: L) = some A.length := by
  induction A with
  | nil => simp [rfindIdx, rfindIdx_none h]
  | cons x xs ih => simp [rfindIdx, ih]

theorem intercalateSlashCL_append_last (front : List (List Char)) (last : List Char)
    (h : front ≠ []) :
    intercalateSlashCL (front ++ [last]) = intercalateSlashCL front ++ '/' :: last := by
  induction front with
  | nil => exact absurd rfl h
  | cons f front' ih =>
    cases front' with
    | nil => rfl
    | cons g gs =>
      simp only [List.cons_append, intercalateSlashCL_cons₂]
      rw [← List.cons_append g gs [last], ih (by simp)]
      simp [intercalateSlashCL_cons₂]

theorem mem_intercalateSlashCL_head {f : List Char} (l : List (List Char)) {x : Char}
    (hx : x ∈ f) : x ∈ intercalateSlashCL (f :: l) := by
  cases l with
  | nil => exact hx
  | cons b bs =>
    rw [intercalateSlashCL_cons₂]
    exact List.mem_append_left _ hx

theorem getLast?_append_cons (acc c : List Char) (x : Char) (hc : c ≠ []) :
    (acc ++ x :: c).getLast? = c.getLast? := by
  rcases hlc : c.getLast? with _ | y
  · exact absurd (List.getLast?_eq_none_iff.mp hlc) hc
  · have heq : acc ++ x :: c = (acc ++ [x]) ++ c := by simp
    rw [heq, @List.getLast?_append _ (acc ++ [x]) c, hlc]
    rfl

theorem getLast?_intercalateSlashCL (comps : List (List Char))
    (hg : ∀ c ∈ comps, c ≠ [] ∧ '/' ∉ c) (hne : comps ≠ []) :
    (intercalateSlashCL comps).getLast? ≠ some '/' := by
  rcases List.eq_nil_or_concat comps with rfl | ⟨front, last, rfl⟩
  · exact absurd rfl hne
  · rw [List.concat_eq_append] at hg ⊢
    have hlast := hg last (by simp)
    have hl2 : last.getLast? ≠ some '/' := by
      rcases hlc : last.getLast? with _ | y
      · simp
      · simp only [ne_eq, Option.some.injEq]
        intro hy
        subst hy
        rcases List.getLast?_eq_some_iff.mp hlc with ⟨l', hl'⟩
        exact hlast.2 (by simp [hl'])
    cases front with
    | nil => simpa using hl2
    | cons f fs =>
      rw [intercalateSlashCL_append_last _ _ (by simp),
        getLast?_append_cons _ _ _ hlast.1]
      exact hl2

theorem rstripSlash_append_slash (A : List Char) :
    rstripSlash (A ++ ['/']) = rstripSlash A := by
  simp [rstripSlash, List.dropWhile]

theorem rstripSlash_eq_self {A : List Char} (h : A.getLast? ≠ some '/') :
    rstripSlash A = A := by
  unfold rstripSlash
  rw [List.getLast?_eq_head?_reverse] at h
  have hdw : A.reverse.dropWhile (· = '/') = A.reverse := by
    rcases hA : A.reverse with _ | ⟨x, xs⟩
    · rfl
    · rw [hA] at h
      simp only [List.head?_cons, ne_eq, Option.some.injEq] at h
      simp [List.dropWhile_cons, h]
  rw [hdw, List.reverse_reverse]


theorem dirnameCL_of_none {p : List Char} (h : rfindIdx '/' p = none) : dirnameCL p = [] := by
  unfold dirnameCL
  rw [h]

theorem dirnameCL_of_some {p : List Char} {i : Nat} (h : rfindIdx '/' p = some i) :
    dirnameCL p =
      (if (p.take (i + 1)).all (· = '/') then p.take (i + 1) else rstripSlash (p.take (i + 1))) := by
  unfold dirnameCL
  rw [h]

theorem dirnameCL_intercalateSlashCL (comps : List (List Char))
    (hg : ∀ c ∈ comps, c ≠ [] ∧ '/' ∉ c) (hne : comps ≠ []) :
    dirnameCL (intercalateSlashCL comps) = intercalateSlashCL comps.dropLast := by
  rcases List.eq_nil_or_concat comps with rfl | ⟨front, last, rfl⟩
  · exact absurd rfl hne
  · rw [List.concat_eq_append] at hg ⊢
    have hlast := hg last (by simp)
    have hdrop : (front ++ [last]).dropLast = front := by simp
    rw [hdrop]
    cases front with
    | nil =>
      simp only [List.nil_append]
      have h1 : intercalateSlashCL [last] = last := rfl
      rw [h1, dirnameCL_of_none (rfindIdx_none hlast.2)]
      rfl
    | cons f fs =>
      have hfront : (f :: fs) ≠ ([] : List (List Char)) := by simp
      have hgf : ∀ c ∈ f :: fs, c ≠ [] ∧ '/' ∉ c := fun c hc => hg c (List.mem_append_left _ hc)
      rw [intercalateSlashCL_append_last _ _ hfront]
      set A := intercalateSlashCL (f :: fs) with hA
      rw [dirnameCL_of_some (rfindIdx_append_last A hlast.2)]
      have htake : (A ++ '/' :: last).take (A.length + 1) = A ++ ['/'] := by
        have : A ++ '/' :: last = (A ++ ['/']) ++ last := by simp
        rw [this]
        have hlen : A.length + 1 = (A ++ ['/']).length := by simp
        rw [hlen, List.take_left]
      rw [htake]
      have hf := hgf f (List.mem_cons_self _ _)
      have hnall : ¬ (A ++ ['/']).all (· = '/') := by
        rcases hx : f with _ | ⟨x, xs⟩
        · exact absurd hx hf.1
        · have hxf : x ∈ f := by simp [hx]
          have hxA : x ∈ A ++ ['/'] :=
            List.mem_append_left _ (mem_intercalateSlashCL_head fs hxf)
          have hxs : x ≠ '/' := fun hcon => hf.2 (hcon ▸ hxf)
          simp only [List.all_eq_true, decide_eq_true_eq]
          intro hall
          exact hxs (hall x hxA)
      rw [if_neg hnall, rstripSlash_append_slash,
        rstripSlash_eq_self (getLast?_intercalateSlashCL _ hgf hfront)]

theorem getLast?_ne_slash {c : List Char} (hs : '/' ∉ c) :
    c.getLast? ≠ some '/' := by
  rcases hlc : c.getLast? with _ | y
  · simp
  · simp only [ne_eq, Option.some.injEq]
    intro hy
    subst hy
    rcases List.getLast?_eq_some_iff.mp hlc with ⟨l', hl'⟩
    exact hs (by simp [hl'])

theorem relpath_renderPath (input : String) (comps : List String)
    (hg : ∀ c ∈ comps, GoodComp c) (hne : comps ≠ []) :
    (relpath (renderPath input comps) input).toList =
      intercalateSlashCL (comps.map String.toList) := by
  have hparts := partsCL_renderPath comps input hg
  show relpathCL (renderPath input comps).toList input.toList = _
  simp only [relpathCL]
  rw [hparts, commonPrefixLen_self_append, Nat.sub_self, List.replicate_zero,
    List.nil_append, List.drop_left]
  cases comps with
  | nil => exact absurd rfl hne
  | cons c cs =>
    simp only [List.map_cons]
    have hgood : ∀ x ∈ cs.map String.toList, x ≠ [] ∧ '/' ∉ x := by
      intro x hx
      rcases List.mem_map.mp hx with ⟨s, hs, rfl⟩
      have := hg s (List.mem_cons_of_mem _ hs)
      exact ⟨toList_ne_nil this.1, this.2⟩
    have hgc := hg c (List.mem_cons_self _ _)
    exact foldl_joinCL_good _ c.toList (toList_ne_nil hgc.1)
      (getLast?_ne_slash hgc.2) hgood

theorem dirname_relpath_renderPath (input : String) (comps : List String)
    (hg : ∀ c ∈ comps, GoodComp c) (hne : comps ≠ []) :
    dirname (relpath (renderPath input comps) input) = intercalateSlash comps.dropLast := by
  unfold dirname intercalateSlash
  rw [relpath_renderPath input comps hg hne]
  have hgood : ∀ x ∈ comps.map String.toList, x ≠ [] ∧ '/' ∉ x := by
    intro x hx
    rcases List.mem_map.mp hx with ⟨s, hs, rfl⟩
    have := hg s hs
    exact ⟨toList_ne_nil this.1, this.2⟩
  have hmne : comps.map String.toList ≠ [] := by
    intro hcon
    exact hne (List.map_eq_nil_iff.mp hcon)
  rw [dirnameCL_intercalateSlashCL _ hgood hmne]
  congr 1
  congr 1
  exact (List.map_dropLast _ _).symm

theorem guiOutputDir_spec (cfg : RunConfig) (comps : List String)
    (hg : ∀ c ∈ comps, GoodComp c) (hne : comps ≠ []) :
    guiOutputDir cfg (renderPath cfg.input_path comps) = specOutputDir cfg.output_path comps := by
  unfold guiOutputDir specOutputDir
  rw [dirname_relpath_renderPath cfg.input_path comps hg hne]

/-! ## Claim C1: file discovery -/

theorem is_valid_file_iff (name : String) : is_valid_file name = true ↔ SpecEligible name := by
  unfold is_valid_file SpecEligible
  rw [Bool.and_eq_true, Bool.not_eq_true']
  rw [List.elem_iff]
  tauto

/-- C1 as stated is false: discovery in the doclingGUI front-end keeps
only pdf extensions and does not exclude hidden files, so on the spec's
scenario directory it returns a.pdf and .hidden.pdf instead of a.pdf
and b.docx. -/
theorem C1_counterexample :
    find_pdf_files scenarioFS = [["a.pdf"], [".hidden.pdf"]] ∧
    find_pdf_files scenarioFS ≠ [["a.pdf"], ["b.docx"]] := by
  constructor
  · decide
  · decide

/-- C1 amended: the main.py front-end's discovery returns exactly the
traversal files whose extension is in the allow-list case-insensitively
and whose name does not start with a dot (and yields exactly a.pdf,
b.docx on the scenario directory), while the doclingGUI front-end's
discovery returns exactly the traversal files whose lower-cased name
ends with the pdf extension, hidden files included. -/
theorem C1_amended :
    (∀ (fs : List FsEntry) (p : List String),
      p ∈ get_files_to_process fs ↔
        (∃ e ∈ fs, e.isFile = true ∧ e.comps = p) ∧ SpecEligible (p.getLastD "")) ∧
    get_files_to_process scenarioFS = [["a.pdf"], ["b.docx"]] ∧
    (∀ (fs : List FsEntry) (p : List String),
      p ∈ find_pdf_files fs ↔
        (∃ e ∈ fs, e.isFile = true ∧ e.comps = p) ∧ lowerEndsWithPdf (p.getLastD "") = true) := by
  refine ⟨?_, by decide, ?_⟩
  · intro fs p
    unfold get_files_to_process
    simp only [List.mem_map, List.mem_filter, Bool.and_eq_true]
    constructor
    · rintro ⟨e, ⟨hmem, hfile, hvalid⟩, rfl⟩
      refine ⟨⟨e, hmem, hfile, rfl⟩, ?_⟩
      exact (is_valid_file_iff _).mp hvalid
    · rintro ⟨⟨e, hmem, hfile, rfl⟩, helig⟩
      exact ⟨e, ⟨hmem, hfile, (is_valid_file_iff _).mpr helig⟩, rfl⟩
  · intro fs p
    unfold find_pdf_files
    simp only [List.mem_map, List.mem_filter, Bool.and_eq_true]
    constructor
    · rintro ⟨e, ⟨hmem, hfile, hpdf⟩, rfl⟩
      exact ⟨⟨e, hmem, hfile, rfl⟩, hpdf⟩
    · rintro ⟨⟨e, hmem, hfile, rfl⟩, hpdf⟩
      exact ⟨e, ⟨hmem, hfile, hpdf⟩, rfl⟩

/-! ## Claim C2: output-directory argument -/

/-- Concrete main.py configuration used to exhibit the divergence. -/
def mainCfgC : ProcessingConfig :=
  ⟨"/in", "/out", "md", "fast", false, false, "/tmp"⟩

/-- C2 as stated is false for the main.py front-end: for the file
sub/a.pdf under the input root, the output argument it passes is the
top-level output directory, not the mirrored per-file subdirectory the
spec requires. -/
theorem C2_counterexample :
    renderPath "/in" ["sub", "a.pdf"] = "/in/sub/a.pdf" ∧
    extractFlagArg "--output" (build_docling_command mainCfgC "/in/sub/a.pdf") = some "/out" ∧
    specOutputDir "/out" ["sub", "a.pdf"] = "/out/sub" ∧
    ("/out" : String) ≠ "/out/sub" := by
  refine ⟨by decide, by decide, by decide, by decide⟩

/-- C2 amended: the doclingGUI front-end passes exactly the spec's
per-file output subdirectory (output root joined with the parent of the
file's path relative to the input root), while the main.py front-end
always passes the top-level output directory. -/
theorem C2_amended :
    (∀ (cfg : RunConfig) (comps : List String),
      (∀ c ∈ comps, GoodComp c) → comps ≠ [] →
      ∃ pre post, guiBuildCommand cfg (renderPath cfg.input_path comps) =
        pre ++ "--output" :: specOutputDir cfg.output_path comps :: post) ∧
    (∀ (cfg : ProcessingConfig) (f : String),
      ∃ pre post, build_docling_command cfg f =
        pre ++ "--output" :: cfg.output_path :: post) := by
  constructor
  · intro cfg comps hg hne
    refine ⟨["docling", renderPath cfg.input_path comps, "--from", "pdf", "--to", "md"]
        ++ (if cfg.ocr_enabled then ["--ocr"] else ["--no-ocr"])
        ++ (if cfg.force_ocr then ["--force-ocr"] else ["--no-force-ocr"])
        ++ ["--ocr-engine", cfg.ocr_engine, "--table-mode", cfg.table_mode],
      (if cfg.verbosity ≠ "" then [cfg.verbosity] else []), ?_⟩
    rw [guiBuildCommand, guiOutputDir_spec cfg comps hg hne]
    simp
  · intro cfg f
    refine ⟨["docling", f, "--to", cfg.export_format],
      ["--table-mode", cfg.table_mode, "--ocr-engine", "easyocr", "--verbose"]
        ++ (if cfg.force_ocr then ["--force-ocr"] else [])
        ++ (if cfg.ocr_bitmaps then ["--ocr"] else []), ?_⟩
    rw [build_docling_command]
    simp

/-- C2 amended witness at a concrete configuration and file. -/
theorem C2_amended_witness :
    ∃ pre post,
      guiBuildCommand ⟨"/in", "/out", false, false, "easyocr", "accurate", "", false⟩
          (renderPath "/in" ["sub", "a.pdf"]) =
        pre ++ "--output" :: specOutputDir "/out" ["sub", "a.pdf"] :: post :=
  C2_amended.1 ⟨"/in", "/out", false, false, "easyocr", "accurate", "", false⟩
    ["sub", "a.pdf"] (by decide) (by decide)

/-! ## Claim C3: abort on first per-file failure (doclingGUI) -/

theorem guiLoop_fail (exec : List String → ProcResult) (pre : List (List String))
    (f : List String) (post : List (List String))
    (hpre : ∀ g ∈ pre, (exec g).returncode = 0)
    (hf : (exec f).returncode ≠ 0) :
    guiLoop exec (pre ++ f :: post) = .error (errorMessage (basenameOf f) (exec f)) := by
  induction pre with
  | nil =>
    simp only [List.nil_append, guiLoop]
    rw [if_neg hf]
  | cons g gs ih =>
    have hg := hpre g (List.mem_cons_self _ _)
    have ih' := ih (fun x hx => hpre x (List.mem_cons_of_mem _ hx))
    simp only [List.cons_append, guiLoop, List.append_eq]
    rw [if_pos hg, ih']
    rfl

/-- C3: under the doclingGUI abort policy, when the external process of
a file exits non-zero with non-empty stderr after all earlier files
succeeded, the run ends failed with the error text that contains both
the file's name and the captured stderr, and the files after it are
never attempted: the run result does not depend on them at all. -/
theorem C3_abort_on_first_error (exec : List String → ProcResult)
    (pre : List (List String)) (f : List String) (post post' : List (List String))
    (hpre : ∀ g ∈ pre, (exec g).returncode = 0)
    (hf : (exec f).returncode ≠ 0) (hstderr : (exec f).stderr ≠ "") :
    guiLoop exec (pre ++ f :: post) = .error (errorMessage (basenameOf f) (exec f)) ∧
    guiLoop exec (pre ++ f :: post) = guiLoop exec (pre ++ f :: post') ∧
    (∃ a b, errorMessage (basenameOf f) (exec f) = a ++ (basenameOf f ++ b)) ∧
    (∃ a b, errorMessage (basenameOf f) (exec f) = a ++ ((exec f).stderr ++ b)) := by
  refine ⟨guiLoop_fail exec pre f post hpre hf, ?_, ?_, ?_⟩
  · rw [guiLoop_fail exec pre f post hpre hf, guiLoop_fail exec pre f post' hpre hf]
  · refine ⟨"Error processing ",
      "\n" ++ "Command failed with exit status " ++ toString (exec f).returncode ++ "\n" ++
      "Error output:\n" ++ (if (exec f).stderr ≠ "" then (exec f).stderr else "No error output") ++
      "\n" ++ "Standard output:\n" ++
      (if (exec f).stdout ≠ "" then (exec f).stdout else "No standard output"), ?_⟩
    simp [errorMessage, String.append_assoc]
  · refine ⟨"Error processing " ++ basenameOf f ++ "\n" ++
      "Command failed with exit status " ++ toString (exec f).returncode ++ "\n" ++
      "Error output:\n",
      "\n" ++ "Standard output:\n" ++
      (if (exec f).stdout ≠ "" then (exec f).stdout else "No standard output"), ?_⟩
    rw [errorMessage, if_pos hstderr]
    simp [String.append_assoc]

/-- C3 witness: concrete run in which a.pdf fails with stderr parse
error after no predecessors, with b.docx never attempted. -/
theorem C3_witness :
    guiLoop (fun f => if f = (["a.pdf"] : List String) then ⟨1, "", "parse error"⟩ else ⟨0, "", ""⟩)
        ([] ++ ["a.pdf"] :: [["b.docx"]]) =
      .error (errorMessage "a.pdf" ⟨1, "", "parse error"⟩) ∧
    (∃ a b, errorMessage "a.pdf" ⟨1, "", "parse error"⟩ = a ++ ("a.pdf" ++ b)) ∧
    (∃ a b, errorMessage "a.pdf" ⟨1, "", "parse error"⟩ = a ++ ("parse error" ++ b)) := by
  have h := C3_abort_on_first_error
    (fun f => if f = (["a.pdf"] : List String) then ⟨1, "", "parse error"⟩ else ⟨0, "", ""⟩)
    [] ["a.pdf"] [["b.docx"]] [["b.docx"]]
    (by intro g hg; simp at hg) (by decide) (by decide)
  exact ⟨h.1, h.2.2.1, h.2.2.2⟩

/-! ## Claim C4: cooperative cancellation (src/main.py worker) -/

theorem main_process_files_cancel_aux (exec : List String → ProcResult) (k : Nat) :
    ∀ (files : List (List String)) (i : Nat), i ≤ k → k - i < files.length →
    (∀ f ∈ files.take (k - i), (exec f).returncode = 0) →
    main_process_files (fun j => decide (k ≤ j)) exec i files =
      ((files.take (k - i)).map .progress, files.take (k - i), true) := by
  intro files
  induction files with
  | nil => intro i _ hlt _; simp at hlt
  | cons f rest ih =>
    intro i hik hlt hok
    rcases Nat.eq_zero_or_pos (k - i) with hzero | hpos
    · have hki : k ≤ i := Nat.le_of_sub_eq_zero hzero
      simp only [main_process_files, hzero]
      rw [if_pos (by simpa using hki)]
      simp
    · have hik' : i < k := Nat.lt_of_sub_pos hpos
      have hflag : ¬ (decide (k ≤ i) = true) := by simpa using Nat.not_le_of_lt hik'
      rcases Nat.exists_eq_add_of_lt hpos with ⟨m, hm⟩
      have hkim : k - i = m + 1 := by omega
      have htake : (f :: rest).take (k - i) = f :: rest.take (k - (i + 1)) := by
        rw [hkim]
        have : k - (i + 1) = m := by omega
        rw [this]
        rfl
      have hf0 : (exec f).returncode = 0 := by
        apply hok
        rw [htake]
        exact List.mem_cons_self _ _
      have hok' : ∀ g ∈ rest.take (k - (i + 1)), (exec g).returncode = 0 := by
        intro g hg
        apply hok
        rw [htake]
        exact List.mem_cons_of_mem _ hg
      have hlt' : k - (i + 1) < rest.length := by
        simp only [List.length_cons] at hlt
        omega
      have hik'' : i + 1 ≤ k := hik'
      simp only [main_process_files]
      rw [if_neg hflag, ih (i + 1) hik'' hlt' hok']
      rw [if_pos hf0, htake]
      simp

theorem main_process_files_agree_aux (exec exec' : List String → ProcResult) (k : Nat) :
    ∀ (files : List (List String)) (i : Nat), i ≤ k →
    (∀ f ∈ files.take (k - i), exec' f = exec f) →
    main_process_files (fun j => decide (k ≤ j)) exec' i files =
      main_process_files (fun j => decide (k ≤ j)) exec i files := by
  intro files
  induction files with
  | nil => intro i _ _; rfl
  | cons f rest ih =>
    intro i hik hagree
    rcases Nat.eq_zero_or_pos (k - i) with hzero | hpos
    · have hki : k ≤ i := Nat.le_of_sub_eq_zero hzero
      simp only [main_process_files]
      rw [if_pos (by simpa using hki), if_pos (by simpa using hki)]
    · have hik' : i < k := Nat.lt_of_sub_pos hpos
      have hflag : ¬ (decide (k ≤ i) = true) := by simpa using Nat.not_le_of_lt hik'
      rcases Nat.exists_eq_add_of_lt hpos with ⟨m, hm⟩
      have hkim : k - i = m + 1 := by omega
      have htake : (f :: rest).take (k - i) = f :: rest.take (k - (i + 1)) := by
        rw [hkim]
        have : k - (i + 1) = m := by omega
        rw [this]
        rfl
      have hf : exec' f = exec f := by
        apply hagree
        rw [htake]
        exact List.mem_cons_self _ _
      have hagree' : ∀ g ∈ rest.take (k - (i + 1)), exec' g = exec g := by
        intro g hg
        apply hagree
        rw [htake]
        exact List.mem_cons_of_mem _ hg
      simp only [main_process_files]
      rw [if_neg hflag, if_neg hflag, hf, ih (i + 1) hik' hagree']

/-- C4: when cancellation is requested after the k-th file completes
and before the k+1-st starts (the flag reads false for the first k
iterations and true from iteration k on), exactly the first k files are
converted, the loop result never depends on the outcomes of the
remaining files, and the final run state is Cancelled. -/
theorem C4_cancellation (files : List (List String)) (k : Nat)
    (exec exec' : List String → ProcResult)
    (hk : k < files.length)
    (hok : ∀ f ∈ files.take k, (exec f).returncode = 0)
    (hagree : ∀ f ∈ files.take k, exec' f = exec f) :
    main_process_files (fun j => decide (k ≤ j)) exec 0 files =
      ((files.take k).map .progress, files.take k, true) ∧
    (files.take k).length = k ∧
    mainRunState (main_process_files (fun j => decide (k ≤ j)) exec 0 files) = .Cancelled ∧
    main_process_files (fun j => decide (k ≤ j)) exec' 0 files =
      main_process_files (fun j => decide (k ≤ j)) exec 0 files := by
  have h0 : k - 0 = k := by omega
  have hmain := main_process_files_cancel_aux exec k files 0 (Nat.zero_le k) (by omega)
    (by rw [h0]; exact hok)
  rw [h0] at hmain
  refine ⟨hmain, ?_, ?_, ?_⟩
  · rw [List.length_take]
    omega
  · rw [hmain]
    rfl
  · exact main_process_files_agree_aux exec exec' k files 0 (Nat.zero_le k)
      (by rw [h0]; exact hagree)

/-- C4 witness: three discovered files, cancellation requested after
the second completes; exactly two files are converted and the state is
Cancelled. -/
theorem C4_witness :
    main_process_files (fun j => decide (2 ≤ j)) (fun _ => ⟨0, "", ""⟩) 0
        [["a.pdf"], ["b.docx"], ["c.md"]] =
      ([.progress ["a.pdf"], .progress ["b.docx"]], [["a.pdf"], ["b.docx"]], true) ∧
    mainRunState (main_process_files (fun j => decide (2 ≤ j)) (fun _ => ⟨0, "", ""⟩) 0
      [["a.pdf"], ["b.docx"], ["c.md"]]) = .Cancelled := by
  have h := C4_cancellation [["a.pdf"], ["b.docx"], ["c.md"]] 2
    (fun _ => ⟨0, "", ""⟩) (fun _ => ⟨0, "", ""⟩)
    (by decide) (by intro f _; rfl) (by intro f _; rfl)
  exact ⟨h.1, h.2.2.1⟩

/-! ## Claim C5: empty discovery -/

/-- Directory holding a single non-matching file, so discovery finds
nothing. -/
def fs5 : List FsEntry := [⟨["c.exe"], true⟩]

/-- External process stub that always succeeds. -/
def execOk : List String → ProcResult := fun _ => ⟨0, "", ""⟩

/-- C5 as stated is false for the main.py front-end: with an input
directory whose discovery is empty, the worker loop emits no error, the
run finishes with the plain finished signal only, and the final state
is Completed, a silent success instead of the claimed failure. -/
theorem C5_counterexample :
    get_files_to_process fs5 = [] ∧
    main_process_files (fun _ => false) execOk 0 (get_files_to_process fs5) = ([], [], false) ∧
    worker_run (main_process_files (fun _ => false) execOk 0 (get_files_to_process fs5)).1 none =
      [.finished] ∧
    mainRunState (main_process_files (fun _ => false) execOk 0 (get_files_to_process fs5)) =
      .Completed := by
  refine ⟨by decide, by decide, by decide, by decide⟩

/-- C5 amended: the doclingGUI front-end fails with the no-files error
before processing anything when discovery is empty (and deletes
nothing), while the main.py front-end treats an empty discovery as a
silent success, converting nothing and emitting no signal from the
loop. -/
theorem C5_amended :
    (∀ (cfg : RunConfig) (exec : List String → ProcResult) (delExec : List String → Bool)
      (fs : List FsEntry), find_pdf_files fs = [] →
      process_conversion cfg exec delExec fs =
        (.error "No PDF files found in the input folder", [])) ∧
    (∀ (flag : Nat → Bool) (exec : List String → ProcResult) (i : Nat),
      main_process_files flag exec i [] = ([], [], false)) := by
  constructor
  · intro cfg exec delExec fs hempty
    unfold process_conversion
    rw [hempty]
    rfl
  · intro flag exec i
    rfl

/-- C5 amended witness at the concrete empty-discovery directory. -/
theorem C5_amended_witness :
    process_conversion ⟨"/in", "/out", false, false, "easyocr", "accurate", "", false⟩
        execOk (fun _ => true) fs5 =
      (.error "No PDF files found in the input folder", []) :=
  C5_amended.1 ⟨"/in", "/out", false, false, "easyocr", "accurate", "", false⟩
    execOk (fun _ => true) fs5 (by decide)

/-! ## Claim C6: flag occurrence counts and verbosity -/

/-- Concrete UI state with verbosity level 2 for the counterexample. -/
def uiLevel2 : UIState := ⟨"/in", "/out", false, false, "easyocr", "accurate", 2, false⟩

/-- C6 as stated is false: at verbosity level 2 the built command holds
the single argument obtained by string repetition, not two separate
verbosity flags. -/
theorem C6_counterexample :
    (guiBuildCommand (get_config uiLevel2) "/in/a.pdf").count "-v" = 0 ∧
    (guiBuildCommand (get_config uiLevel2) "/in/a.pdf").count "-v-v" = 1 := by
  refine ⟨by decide, by decide⟩

/-- An argument value that is none of the option strings the builder
emits; the paths and engine names of a valid configuration are. -/
def CleanArg (s : String) : Prop :=
  s ∉ ["--from", "--to", "--ocr", "--no-ocr", "--force-ocr", "--no-force-ocr",
       "--ocr-engine", "--table-mode", "--output", "-v", "-v-v"]

instance (s : String) : Decidable (CleanArg s) := by
  unfold CleanArg; infer_instance

/-- Regrouping of the doclingGUI command with the value arguments
abstracted, used to count flag occurrences. -/
def cmdCore (f out eng tm : String) (b1 b2 : Bool) : List String :=
  ["docling", f, "--from", "pdf", "--to", "md"]
  ++ (if b1 then ["--ocr"] else ["--no-ocr"])
  ++ (if b2 then ["--force-ocr"] else ["--no-force-ocr"])
  ++ ["--ocr-engine", eng, "--table-mode", tm, "--output", out]

theorem guiBuildCommand_core (cfg : RunConfig) (f : String) :
    guiBuildCommand cfg f =
      cmdCore f (guiOutputDir cfg f) cfg.ocr_engine cfg.table_mode cfg.ocr_enabled cfg.force_ocr
      ++ (if cfg.verbosity ≠ "" then [cfg.verbosity] else []) := rfl

theorem cmdCore_count (x f out eng tm : String) (b1 b2 : Bool)
    (hf : f ≠ x) (ho : out ≠ x) (he : eng ≠ x) (ht : tm ≠ x) :
    (cmdCore f out eng tm b1 b2).count x =
      (["docling", "--from", "pdf", "--to", "md"]).count x
      + (if b1 then (["--ocr"] : List String) else ["--no-ocr"]).count x
      + (if b2 then (["--force-ocr"] : List String) else ["--no-force-ocr"]).count x
      + (["--ocr-engine", "--table-mode", "--output"]).count x := by
  cases b1 <;> cases b2 <;>
    simp [cmdCore, List.count_append, List.count_cons, hf, ho, he, ht] <;> omega

theorem verb0 : (if (0 : Nat) > 0 then repeatStr "-v" 0 else "") = "" := rfl

theorem verb1 : (if (1 : Nat) > 0 then repeatStr "-v" 1 else "") = "-v" := rfl

theorem verb2 : (if (2 : Nat) > 0 then repeatStr "-v" 2 else "") = "-v-v" := rfl

theorem tail0 : (if ("" : String) ≠ "" then ([""] : List String) else []) = [] := by decide

theorem tailv : (if ("-v" : String) ≠ "" then (["-v"] : List String) else []) = ["-v"] := by
  decide

theorem tailvv : (if ("-v-v" : String) ≠ "" then (["-v-v"] : List String) else []) = ["-v-v"] := by
  decide

/-- C6 amended: each relevant flag occurs exactly once in the built
command, but the verbosity setting contributes a single argument that is
the flag repeated as one string (none at level 0, the plain flag at
level 1, the four-character doubled string at level 2), never two
separate verbosity flags. -/
theorem C6_amended (ui : UIState) (f : String)
    (hlevel : ui.verbosity_level ≤ 2)
    (hf : CleanArg f) (hout : CleanArg (guiOutputDir (get_config ui) f))
    (heng : CleanArg ui.ocr_engine) (htm : CleanArg ui.table_mode) :
    ((guiBuildCommand (get_config ui) f).count "--from" = 1 ∧
     (guiBuildCommand (get_config ui) f).count "--to" = 1 ∧
     (guiBuildCommand (get_config ui) f).count "--ocr-engine" = 1 ∧
     (guiBuildCommand (get_config ui) f).count "--table-mode" = 1 ∧
     (guiBuildCommand (get_config ui) f).count "--output" = 1) ∧
    ((guiBuildCommand (get_config ui) f).count "--ocr" +
       (guiBuildCommand (get_config ui) f).count "--no-ocr" = 1) ∧
    ((guiBuildCommand (get_config ui) f).count "--force-ocr" +
       (guiBuildCommand (get_config ui) f).count "--no-force-ocr" = 1) ∧
    (ui.verbosity_level = 0 →
      (guiBuildCommand (get_config ui) f).count "-v" = 0 ∧
      (guiBuildCommand (get_config ui) f).count "-v-v" = 0) ∧
    (ui.verbosity_level = 1 →
      (guiBuildCommand (get_config ui) f).count "-v" = 1 ∧
      (guiBuildCommand (get_config ui) f).count "-v-v" = 0) ∧
    (ui.verbosity_level = 2 →
      (guiBuildCommand (get_config ui) f).count "-v" = 0 ∧
      (guiBuildCommand (get_config ui) f).count "-v-v" = 1) := by
  simp only [guiBuildCommand_core]
  generalize guiOutputDir (get_config ui) f = out at hout ⊢
  obtain ⟨ip, op, oe, fo, eng, tm, lvl, dp⟩ := ui
  dsimp only [get_config] at hlevel heng htm ⊢
  simp only [CleanArg, List.mem_cons, List.not_mem_nil, or_false, not_or] at hf hout heng htm
  obtain ⟨hf1, hf2, hf3, hf4, hf5, hf6, hf7, hf8, hf9, hf10, hf11⟩ := hf
  obtain ⟨ho1, ho2, ho3, ho4, ho5, ho6, ho7, ho8, ho9, ho10, ho11⟩ := hout
  obtain ⟨he1, he2, he3, he4, he5, he6, he7, he8, he9, he10, he11⟩ := heng
  obtain ⟨ht1, ht2, ht3, ht4, ht5, ht6, ht7, ht8, ht9, ht10, ht11⟩ := htm
  interval_cases lvl <;> cases oe <;> cases fo <;>
    simp only [verb0, verb1, verb2, tail0, tailv, tailvv] <;>
    refine ⟨⟨?_, ?_, ?_, ?_, ?_⟩, ?_, ?_, ?_, ?_, ?_⟩ <;>
    first
      | (intro hcon; exact absurd hcon (by decide))
      | (intro hcon
         refine ⟨?_, ?_⟩ <;>
           first
             | (rw [List.count_append, cmdCore_count _ _ _ _ _ _ _ hf10 ho10 he10 ht10]; decide)
             | (rw [List.count_append, cmdCore_count _ _ _ _ _ _ _ hf11 ho11 he11 ht11]; decide))
      | (rw [List.count_append, cmdCore_count _ _ _ _ _ _ _ hf1 ho1 he1 ht1]; decide)
      | (rw [List.count_append, cmdCore_count _ _ _ _ _ _ _ hf2 ho2 he2 ht2]; decide)
      | (rw [List.count_append, cmdCore_count _ _ _ _ _ _ _ hf7 ho7 he7 ht7]; decide)
      | (rw [List.count_append, cmdCore_count _ _ _ _ _ _ _ hf8 ho8 he8 ht8]; decide)
      | (rw [List.count_append, cmdCore_count _ _ _ _ _ _ _ hf9 ho9 he9 ht9]; decide)
      | (rw [List.count_append, List.count_append,
          cmdCore_count _ _ _ _ _ _ _ hf3 ho3 he3 ht3,
          cmdCore_count _ _ _ _ _ _ _ hf4 ho4 he4 ht4]; decide)
      | (rw [List.count_append, List.count_append,
          cmdCore_count _ _ _ _ _ _ _ hf5 ho5 he5 ht5,
          cmdCore_count _ _ _ _ _ _ _ hf6 ho6 he6 ht6]; decide)

/-- C6 amended witness at a concrete configuration, file and verbosity
level 2. -/
theorem C6_amended_witness :
    ((guiBuildCommand (get_config uiLevel2) "/in/a.pdf").count "--output" = 1) ∧
    ((guiBuildCommand (get_config uiLevel2) "/in/a.pdf").count "-v" = 0 ∧
     (guiBuildCommand (get_config uiLevel2) "/in/a.pdf").count "-v-v" = 1) := by
  have h := C6_amended uiLevel2 "/in/a.pdf" (by decide) (by decide) (by decide)
    (by decide) (by decide)
  exact ⟨h.1.2.2.2.2, h.2.2.2.2.2 rfl⟩

/-! ## Claims C7 and C8: settings store -/

/-- C7: loading the JSON object that save wrote for any settings value
returns exactly that value's fields (the raw loaded record is the
injection of S). -/
theorem C7_settings_roundtrip (home : String) (S : AppSettings) :
    load_settings home (.parsed (save_settings S)) = .ok (rawOf S) := by
  rfl

/-- C8: a missing or unparseable settings file and missing keys fall
back to the defaults, but a file whose contents are well-formed JSON
that is not an object escapes the except clause: load raises instead of
returning the defaults, refuting the never-raises claim on that input. -/
theorem C8_load_raises_on_nonobject (home : String) :
    load_settings home .absent = .ok (rawOf (default_settings home)) ∧
    load_settings home .unparseable = .ok (rawOf (default_settings home)) ∧
    load_settings home (.parsed (.obj [])) = .ok (rawOf (default_settings home)) ∧
    load_settings home (.parsed (.arr [.num 1, .num 2, .num 3])) =
      .error "AttributeError: object has no attribute get" := by
  refine ⟨rfl, rfl, rfl, rfl⟩

/-! ## Claim C9: source deletion policy -/

/-- C9: sources are deleted only when the delete flag is set and the
whole run succeeded; a failed run deletes nothing; and the run outcome
never depends on whether individual deletions succeed, so a failing
deletion can never turn the run into a failure. -/
theorem C9_delete_only_on_success (cfg : RunConfig) (exec : List String → ProcResult)
    (delExec delExec' : List String → Bool) (fs : List FsEntry) :
    ((process_conversion cfg exec delExec fs).2 ≠ [] →
      cfg.delete_pdfs = true ∧
      ∃ l, (process_conversion cfg exec delExec fs).1 = .ok l) ∧
    (∀ m, (process_conversion cfg exec delExec fs).1 = .error m →
      (process_conversion cfg exec delExec fs).2 = []) ∧
    (process_conversion cfg exec delExec fs).1 = (process_conversion cfg exec delExec' fs).1 := by
  unfold process_conversion
  by_cases hemp : (find_pdf_files fs).isEmpty
  · simp [hemp]
  · rcases hloop : guiLoop exec (find_pdf_files fs) with m | processed
    · simp [hemp, hloop]
    · by_cases hdel : cfg.delete_pdfs
      · simp [hemp, hloop, hdel]
      · simp [hemp, hloop, hdel]

/-- Input directory with two pdf files for the C9 witness. -/
def fs9 : List FsEntry := [⟨["a.pdf"], true⟩, ⟨["sub", "b.pdf"], true⟩]

/-- Deletion stub that fails on one of the two sources. -/
def delHalf : List String → Bool := fun f => f = ["a.pdf"]

/-- C9 witness: with the delete flag set, an all-success run and one of
two deletions failing, something was deleted, the run is a success, and
the outcome equals the outcome under fully successful deletion. -/
theorem C9_witness :
    (process_conversion ⟨"/in", "/out", false, false, "easyocr", "accurate", "", true⟩
        execOk delHalf fs9).2 ≠ [] ∧
    (⟨"/in", "/out", false, false, "easyocr", "accurate", "", true⟩ : RunConfig).delete_pdfs
        = true ∧
    (∃ l, (process_conversion ⟨"/in", "/out", false, false, "easyocr", "accurate", "", true⟩
        execOk delHalf fs9).1 = .ok l) ∧
    (process_conversion ⟨"/in", "/out", false, false, "easyocr", "accurate", "", true⟩
        execOk delHalf fs9).1 =
      (process_conversion ⟨"/in", "/out", false, false, "easyocr", "accurate", "", true⟩
        execOk (fun _ => true) fs9).1 := by
  have h := C9_delete_only_on_success
    ⟨"/in", "/out", false, false, "easyocr", "accurate", "", true⟩ execOk delHalf
    (fun _ => true) fs9
  have hne : (process_conversion ⟨"/in", "/out", false, false, "easyocr", "accurate", "", true⟩
      execOk delHalf fs9).2 ≠ [] := by decide
  have h1 := h.1 hne
  exact ⟨hne, h1.1, h1.2, h.2.2⟩

/-! ## Claim C10: the completion path always runs exactly once -/

theorem main_process_files_no_finished (flag : Nat → Bool) (exec : List String → ProcResult) :
    ∀ (i : Nat) (files : List (List String)),
    (main_process_files flag exec i files).1.count .finished = 0 := by
  intro i files
  induction files generalizing i with
  | nil => rfl
  | cons f rest ih =>
    simp only [main_process_files]
    by_cases hflag : flag i
    · simp [hflag]
    · by_cases h0 : (exec f).returncode = 0
      · simp [hflag, h0, List.count_cons, ih (i + 1)]
      · simp [hflag, h0, List.count_cons, ih (i + 1)]

/-- C10: whatever the worker body does (success, per-file failures
recorded as error signals, cancellation, or an escaped exception
reported through the except clause), the finally clause emits the
finished signal exactly once, and the doclingGUI finally clause leaves
the run control re-enabled with its idle label. -/
theorem C10_completion_exactly_once (flag : Nat → Bool) (exec : List String → ProcResult)
    (i : Nat) (files : List (List String)) (exc : Option String)
    (cfg : RunConfig) (execG : List String → ProcResult) (delExec : List String → Bool)
    (fs : List FsEntry) :
    (worker_run (main_process_files flag exec i files).1 exc).count .finished = 1 ∧
    (gui_run_conversion cfg execG delExec fs).2 = ⟨true, "Run Conversion"⟩ := by
  constructor
  · unfold worker_run
    rw [List.count_append, List.count_append,
      main_process_files_no_finished flag exec i files]
    rcases exc with _ | m
    · rfl
    · rfl
  · rfl
